import Mathlib

/-!
Verification of the tailcfg peer-identity data model: structural equality
(`Equal`) and deep clone (`Clone`) for `Hostinfo`, `Node` and `User`, and the
text codec for the three 32-byte key kinds (`nodekey:`, `mkey:`, `discokey:`).

The repository snapshot contains the conformance tests (field manifests and
behavioural tests for `Equal`/`Clone`/the key codec) but not the production
definitions themselves, so the production functions are modelled from the
spec, faithful to its field lists and contracts; the tests fix the concrete
expectations.

Conventions of the embedding:
- Go text is modelled as `List Char`.
- A Go slice field is `Option (List α)`: `none` is a nil slice, `some xs` a
  non-nil slice (possibly of length 0), preserving the nil-vs-empty
  distinction the spec demands.
- A Go pointer-to-value optional field (e.g. `LastSeen *time.Time`) is
  `Option α`.
- `time.Time` instants are modelled as `Int` (exact instant equality).
- Machine integers carry no arithmetic here, so they are `Int`/`Nat`.
-/

/-- A byte is a natural number below 256. -/
def IsByte (b : Nat) : Prop := b < 256

/-- Modelled from the spec: lowercase hex digit for a value below 16
(`Encode` produces lowercase hex). -/
def hexDigit (n : Nat) : Char :=
  if n < 10 then Char.ofNat (48 + n) else Char.ofNat (97 + (n - 10))

/-- Modelled from the spec: value of one hex character, accepting
lowercase and uppercase digits (`Decode` accepts both cases). The three
ranges are the character codes of 0-9, a-f and A-F. -/
def hexVal (c : Char) : Option Nat :=
  if 48 ≤ c.toNat ∧ c.toNat ≤ 57 then some (c.toNat - 48)
  else if 97 ≤ c.toNat ∧ c.toNat ≤ 102 then some (c.toNat - 87)
  else if 65 ≤ c.toNat ∧ c.toNat ≤ 70 then some (c.toNat - 55)
  else none

/-- A character is a valid hex digit when `hexVal` accepts it. -/
def isHex (c : Char) : Bool := (hexVal c).isSome

/-- Case-normalization of a hex character to lowercase: uppercase hex
letters (codes 65-70) map to their lowercase forms 32 codes higher, every
other character is unchanged. -/
def lowerHex (c : Char) : Char :=
  if 65 ≤ c.toNat ∧ c.toNat ≤ 70 then Char.ofNat (c.toNat + 32) else c

/-- Modelled from the spec: one byte rendered as two lowercase hex chars. -/
def byteToHex (b : Nat) : List Char := [hexDigit (b / 16), hexDigit (b % 16)]

/-- Modelled from the spec: a byte sequence rendered as lowercase hex. -/
def encodeBytes (bs : List Nat) : List Char := bs.flatMap byteToHex

/-- Modelled from the spec: parse pairs of hex characters into bytes;
fails on an odd-length input or any non-hex character. -/
def decodeHexPairs : List Char → Option (List Nat)
  | [] => some []
  | [_] => none
  | c1 :: c2 :: rest =>
    match hexVal c1, hexVal c2, decodeHexPairs rest with
    | some v1, some v2, some bs => some ((v1 * 16 + v2) :: bs)
    | _, _, _ => none

/-- Decode failure reasons: the spec's `FormatError`. -/
inductive FormatError where
  | badPfx : FormatError
  | badHex : FormatError
  | badLength : FormatError
deriving DecidableEq, Repr

/-- Modelled from the spec: `Encode(bytes) -> text` produces
`prefix + lowercase-hex(bytes)` (spec section 4.1); the production encoder
is absent from the snapshot. -/
def keyEncode (pfx : List Char) (bs : List Nat) : List Char :=
  pfx ++ encodeBytes bs

/-- Modelled from the spec: `Decode(text) -> bytes or FormatError` fails if
the text does not start with the exact prefix, the remaining characters are
not exactly 64 valid hex digits (either case), or the decoded length is not
32 bytes (spec section 4.1); the production decoder is absent from the
snapshot. -/
def keyDecode (pfx : List Char) (s : List Char) : Except FormatError (List Nat) :=
  if s.take pfx.length = pfx then
    if (s.drop pfx.length).length = 64 then
      match decodeHexPairs (s.drop pfx.length) with
      | some bs => if bs.length = 32 then .ok bs else .error .badLength
      | none => .error .badHex
    else .error .badHex
  else .error .badPfx

/-- The exact prefix of the identity/node key text form. -/
def nodekeyPfx : List Char := ['n', 'o', 'd', 'e', 'k', 'e', 'y', ':']

/-- The exact prefix of the machine key text form. -/
def mkeyPfx : List Char := ['m', 'k', 'e', 'y', ':']

/-- The exact prefix of the discovery key text form. -/
def discokeyPfx : List Char := ['d', 'i', 's', 'c', 'o', 'k', 'e', 'y', ':']

/-- Identity (node) key: wraps 32 raw bytes. Distinct nominal type. -/
structure NodeKey where
  bytes : List Nat
deriving DecidableEq, Repr

/-- Machine key: wraps 32 raw bytes. Distinct nominal type. -/
structure MachineKey where
  bytes : List Nat
deriving DecidableEq, Repr

/-- Discovery key: wraps 32 raw bytes. Distinct nominal type. -/
structure DiscoKey where
  bytes : List Nat
deriving DecidableEq, Repr

/-- A key wraps exactly 32 bytes, each below 256. -/
def KeyBytesOk (bs : List Nat) : Prop := bs.length = 32 ∧ ∀ b ∈ bs, IsByte b

/-- Modelled from the spec: `String()` of a node key. -/
def NodeKey.String (k : NodeKey) : List Char := keyEncode nodekeyPfx k.bytes

/-- Modelled from the spec: `MarshalText` of a node key; never errors. -/
def NodeKey.MarshalText (k : NodeKey) : Except FormatError (List Char) :=
  .ok (keyEncode nodekeyPfx k.bytes)

/-- Modelled from the spec: `UnmarshalText` of a node key. -/
def NodeKey.UnmarshalText (s : List Char) : Except FormatError NodeKey :=
  (keyDecode nodekeyPfx s).map NodeKey.mk

/-- Modelled from the spec: `String()` of a machine key. -/
def MachineKey.String (k : MachineKey) : List Char := keyEncode mkeyPfx k.bytes

/-- Modelled from the spec: `MarshalText` of a machine key; never errors. -/
def MachineKey.MarshalText (k : MachineKey) : Except FormatError (List Char) :=
  .ok (keyEncode mkeyPfx k.bytes)

/-- Modelled from the spec: `UnmarshalText` of a machine key. -/
def MachineKey.UnmarshalText (s : List Char) : Except FormatError MachineKey :=
  (keyDecode mkeyPfx s).map MachineKey.mk

/-- Modelled from the spec: `String()` of a discovery key. -/
def DiscoKey.String (k : DiscoKey) : List Char := keyEncode discokeyPfx k.bytes

/-- Modelled from the spec: `MarshalText` of a discovery key; never errors. -/
def DiscoKey.MarshalText (k : DiscoKey) : Except FormatError (List Char) :=
  .ok (keyEncode discokeyPfx k.bytes)

/-- Modelled from the spec: `UnmarshalText` of a discovery key. -/
def DiscoKey.UnmarshalText (s : List Char) : Except FormatError DiscoKey :=
  (keyDecode discokeyPfx s).map DiscoKey.mk

/-- An IP prefix (CIDR): an address value and a mask-bit count. Compared by
value, as `netaddr.IPPrefix` is in the tests. -/
structure IPPrefix where
  ip : Nat
  bits : Nat
deriving DecidableEq, Repr

/-- An IPv4 address as its 32-bit numeric value, for concrete scenarios. -/
def ipv4 (a b c d : Nat) : Nat := ((a * 256 + b) * 256 + c) * 256 + d

/-- The TCP protocol tag of a `Service`. -/
def TCP : String := "tcp"

/-- The UDP protocol tag of a `Service`. -/
def UDP : String := "udp"

/-- An advertised network service: protocol, port number, description. -/
structure Service where
  Proto : String
  Port : Nat
  Description : String
deriving DecidableEq, Repr

/-- Observed NAT/network characteristics. Field list fixed by the
conformance manifest in `TestNetInfoFields`. Latency values are modelled as
`Int` (their precision plays no role in any claim). -/
structure NetInfo where
  MappingVariesByDestIP : Option Bool
  HairPinning : Option Bool
  WorkingIPv6 : Option Bool
  WorkingUDP : Option Bool
  UPnP : Option Bool
  PMP : Option Bool
  PCP : Option Bool
  PreferredDERP : Int
  LinkType : String
  DERPLatency : Option (List (String × Int))
deriving DecidableEq, Repr

/-- A device's self-reported environment. Field list and order fixed by the
conformance manifest in `TestHostinfoEqual`. Go slice fields are
`Option (List _)` (`none` = nil slice); the `NetInfo` pointer is `Option`. -/
structure Hostinfo where
  IPNVersion : String
  FrontendLogID : String
  BackendLogID : String
  OS : String
  OSVersion : String
  DeviceModel : String
  Hostname : String
  ShieldsUp : Bool
  ShareeNode : Bool
  GoArch : String
  RoutableIPs : Option (List IPPrefix)
  RequestTags : Option (List String)
  Services : Option (List Service)
  NetInfo : Option NetInfo
deriving DecidableEq, Repr

/-- The all-zero `Hostinfo{}` of the tests: empty scalars, nil collections. -/
def Hostinfo.empty : Hostinfo :=
  { IPNVersion := "", FrontendLogID := "", BackendLogID := "", OS := ""
    OSVersion := "", DeviceModel := "", Hostname := ""
    ShieldsUp := false, ShareeNode := false, GoArch := ""
    RoutableIPs := none, RequestTags := none, Services := none
    NetInfo := none }

/-- The aggregate peer descriptor. Field list and order fixed by the
conformance manifest in `TestNodeEqual`. Timestamps are `Int` instants;
`LastSeen` is the optional (nullable) last-seen timestamp. -/
structure Node where
  ID : Int
  StableID : String
  Name : String
  DisplayName : String
  User : Int
  Sharer : Int
  Key : NodeKey
  KeyExpiry : Int
  Machine : MachineKey
  DiscoKey : DiscoKey
  Addresses : Option (List IPPrefix)
  AllowedIPs : Option (List IPPrefix)
  Endpoints : Option (List String)
  DERP : String
  Hostinfo : Hostinfo
  Created : Int
  LastSeen : Option Int
  KeepAlive : Bool
  MachineAuthorized : Bool
deriving DecidableEq, Repr

/-- The all-zero `Node{}` of the tests. -/
def Node.empty : Node :=
  { ID := 0, StableID := "", Name := "", DisplayName := ""
    User := 0, Sharer := 0
    Key := ⟨List.replicate 32 0⟩, KeyExpiry := 0
    Machine := ⟨List.replicate 32 0⟩, DiscoKey := ⟨List.replicate 32 0⟩
    Addresses := none, AllowedIPs := none, Endpoints := none
    DERP := "", Hostinfo := Hostinfo.empty
    Created := 0, LastSeen := none
    KeepAlive := false, MachineAuthorized := false }

/-- Account entity: owns nodes, carries a collection of login identifiers.
Modelled from the spec ("simple owning entity with a collection of login
identifiers"); the production `User` definition is absent from the
snapshot. The login collection is an `Option (List _)` Go slice. -/
structure User where
  ID : Int
  DisplayName : String
  Logins : Option (List Int)
deriving DecidableEq, Repr

/-- Modelled from the spec: element-wise comparison of two non-nil ordered
collections — equal iff same length and element-wise equal in order
(spec section 4.2). -/
def listElemsEqual {α : Type} [DecidableEq α] (xs ys : List α) : Bool :=
  decide (xs.length = ys.length) && (List.zip xs ys).all fun p => decide (p.1 = p.2)

/-- Modelled from the spec: comparison of an ordered-collection (Go slice)
field — nil vs nil equal; nil vs non-nil (even empty) unequal; two non-nil
collections element-wise (spec section 4.2). -/
def olistEqual {α : Type} [DecidableEq α] : Option (List α) → Option (List α) → Bool
  | none, none => true
  | some xs, some ys => listElemsEqual xs ys
  | _, _ => false

/-- Modelled from the spec: comparison of an optional pointer-like field —
nil vs nil equal; nil vs present unequal; present vs present compares the
pointed-to values (spec section 4.2). -/
def optEqual {α : Type} [DecidableEq α] : Option α → Option α → Bool
  | none, none => true
  | some a, some b => decide (a = b)
  | _, _ => false

/-- Modelled from the spec: field-by-field structural equality of two
non-nil `Hostinfo` values, walking every field of the conformance manifest
in order (spec section 4.2); the production `Hostinfo.Equal` is absent from
the snapshot. The `NetInfo` pointer field is compared structurally. -/
def Hostinfo.EqualVal (a b : Hostinfo) : Bool :=
  decide (a.IPNVersion = b.IPNVersion) &&
  decide (a.FrontendLogID = b.FrontendLogID) &&
  decide (a.BackendLogID = b.BackendLogID) &&
  decide (a.OS = b.OS) &&
  decide (a.OSVersion = b.OSVersion) &&
  decide (a.DeviceModel = b.DeviceModel) &&
  decide (a.Hostname = b.Hostname) &&
  decide (a.ShieldsUp = b.ShieldsUp) &&
  decide (a.ShareeNode = b.ShareeNode) &&
  decide (a.GoArch = b.GoArch) &&
  olistEqual a.RoutableIPs b.RoutableIPs &&
  olistEqual a.RequestTags b.RequestTags &&
  olistEqual a.Services b.Services &&
  optEqual a.NetInfo b.NetInfo

/-- Modelled from the spec: `(h *Hostinfo).Equal(h2)` on references — two
nil references equal, nil vs non-nil unequal, else field-by-field
(spec section 4.2). -/
def Hostinfo.Equal : Option Hostinfo → Option Hostinfo → Bool
  | none, none => true
  | some a, some b => a.EqualVal b
  | _, _ => false

/-- Modelled from the spec: field-by-field structural equality of two
non-nil `Node` values, walking every field of the conformance manifest in
order; the embedded `Hostinfo` recursively uses the same contract
(spec section 4.2); the production `Node.Equal` is absent from the
snapshot. -/
def Node.EqualVal (a b : Node) : Bool :=
  decide (a.ID = b.ID) &&
  decide (a.StableID = b.StableID) &&
  decide (a.Name = b.Name) &&
  decide (a.DisplayName = b.DisplayName) &&
  decide (a.User = b.User) &&
  decide (a.Sharer = b.Sharer) &&
  decide (a.Key = b.Key) &&
  decide (a.KeyExpiry = b.KeyExpiry) &&
  decide (a.Machine = b.Machine) &&
  decide (a.DiscoKey = b.DiscoKey) &&
  olistEqual a.Addresses b.Addresses &&
  olistEqual a.AllowedIPs b.AllowedIPs &&
  olistEqual a.Endpoints b.Endpoints &&
  decide (a.DERP = b.DERP) &&
  Hostinfo.EqualVal a.Hostinfo b.Hostinfo &&
  decide (a.Created = b.Created) &&
  optEqual a.LastSeen b.LastSeen &&
  decide (a.KeepAlive = b.KeepAlive) &&
  decide (a.MachineAuthorized = b.MachineAuthorized)

/-- Modelled from the spec: `(n *Node).Equal(n2)` on references
(spec section 4.2). -/
def Node.Equal : Option Node → Option Node → Bool
  | none, none => true
  | some a, some b => a.EqualVal b
  | _, _ => false

/-- Modelled from the spec: clone of an ordered-collection (Go slice)
field — nil stays nil; a non-nil collection is copied element-wise into a
new container, so empty-but-non-nil stays empty-but-non-nil
(spec section 4.3). -/
def cloneOList {α : Type} : Option (List α) → Option (List α)
  | none => none
  | some xs => some (xs.map id)

/-- Modelled from the spec: clone of an optional pointer-like field — nil
stays nil; a present value is copied into a newly owned instance
(spec section 4.3). -/
def cloneOpt {α : Type} : Option α → Option α
  | none => none
  | some a => some a

/-- Modelled from the spec: deep clone of a `NetInfo`, scalars by value and
the latency map copied into a new container (spec section 4.3). -/
def NetInfo.Clone (n : NetInfo) : NetInfo :=
  { MappingVariesByDestIP := n.MappingVariesByDestIP
    HairPinning := n.HairPinning
    WorkingIPv6 := n.WorkingIPv6
    WorkingUDP := n.WorkingUDP
    UPnP := n.UPnP, PMP := n.PMP, PCP := n.PCP
    PreferredDERP := n.PreferredDERP
    LinkType := n.LinkType
    DERPLatency := cloneOList n.DERPLatency }

/-- Modelled from the spec: deep clone of a `Hostinfo` — scalars by value,
ordered collections via `cloneOList`, the optional `NetInfo` recursively
cloned (spec section 4.3); the production `Hostinfo.Clone` is absent from
the snapshot. -/
def Hostinfo.Clone (h : Hostinfo) : Hostinfo :=
  { IPNVersion := h.IPNVersion
    FrontendLogID := h.FrontendLogID
    BackendLogID := h.BackendLogID
    OS := h.OS, OSVersion := h.OSVersion
    DeviceModel := h.DeviceModel, Hostname := h.Hostname
    ShieldsUp := h.ShieldsUp, ShareeNode := h.ShareeNode
    GoArch := h.GoArch
    RoutableIPs := cloneOList h.RoutableIPs
    RequestTags := cloneOList h.RequestTags
    Services := cloneOList h.Services
    NetInfo := Option.map NetInfo.Clone h.NetInfo }

/-- Modelled from the spec: deep clone of a `Node` — scalars and keys by
value, ordered collections via `cloneOList`, embedded `Hostinfo`
recursively cloned, optional `LastSeen` copied into a new owned instance
(spec section 4.3); the production `Node.Clone` is absent from the
snapshot. -/
def Node.Clone (n : Node) : Node :=
  { ID := n.ID, StableID := n.StableID
    Name := n.Name, DisplayName := n.DisplayName
    User := n.User, Sharer := n.Sharer
    Key := n.Key, KeyExpiry := n.KeyExpiry
    Machine := n.Machine, DiscoKey := n.DiscoKey
    Addresses := cloneOList n.Addresses
    AllowedIPs := cloneOList n.AllowedIPs
    Endpoints := cloneOList n.Endpoints
    DERP := n.DERP
    Hostinfo := n.Hostinfo.Clone
    Created := n.Created
    LastSeen := cloneOpt n.LastSeen
    KeepAlive := n.KeepAlive
    MachineAuthorized := n.MachineAuthorized }

/-- Modelled from the spec: deep clone of a `User` — scalars by value, the
login collection via `cloneOList` (spec section 4.3); the production
`User.Clone` is absent from the snapshot. -/
def User.Clone (u : User) : User :=
  { ID := u.ID, DisplayName := u.DisplayName
    Logins := cloneOList u.Logins }

/-! ### Helper lemmas: the collection comparators characterize equality -/

theorem listElemsEqual_iff {α : Type} [DecidableEq α] (xs ys : List α) :
    listElemsEqual xs ys = true ↔ xs = ys := by
  induction xs generalizing ys with
  | nil => cases ys <;> simp [listElemsEqual]
  | cons x xs ih =>
    cases ys with
    | nil => simp [listElemsEqual]
    | cons y ys =>
      have h := ih ys
      simp only [listElemsEqual, List.zip_cons_cons, List.all_cons,
        Bool.and_eq_true, decide_eq_true_eq, List.length_cons,
        List.cons.injEq] at h ⊢
      constructor
      · rintro ⟨hl, he, hr⟩
        exact ⟨he, h.mp ⟨by omega, hr⟩⟩
      · rintro ⟨he, hr⟩
        obtain ⟨hl, ha⟩ := h.mpr hr
        exact ⟨by omega, he, ha⟩

theorem olistEqual_iff {α : Type} [DecidableEq α] (o o' : Option (List α)) :
    olistEqual o o' = true ↔ o = o' := by
  cases o <;> cases o' <;> simp [olistEqual, listElemsEqual_iff]

theorem optEqual_iff {α : Type} [DecidableEq α] (o o' : Option α) :
    optEqual o o' = true ↔ o = o' := by
  cases o <;> cases o' <;> simp [optEqual]

theorem hostinfoEqualVal_iff (a b : Hostinfo) :
    Hostinfo.EqualVal a b = true ↔ a = b := by
  cases a; cases b
  simp [Hostinfo.EqualVal, olistEqual_iff, optEqual_iff, Hostinfo.mk.injEq,
    and_assoc]

theorem nodeEqualVal_iff (a b : Node) :
    Node.EqualVal a b = true ↔ a = b := by
  cases a; cases b
  simp [Node.EqualVal, olistEqual_iff, optEqual_iff, hostinfoEqualVal_iff,
    Node.mk.injEq, and_assoc]

theorem hostinfoEqual_iff (o o' : Option Hostinfo) :
    Hostinfo.Equal o o' = true ↔ o = o' := by
  cases o <;> cases o' <;> simp [Hostinfo.Equal, hostinfoEqualVal_iff]

theorem nodeEqual_iff (o o' : Option Node) :
    Node.Equal o o' = true ↔ o = o' := by
  cases o <;> cases o' <;> simp [Node.Equal, nodeEqualVal_iff]

/-! ### Helper lemmas: clone is structurally faithful -/

theorem cloneOList_eq {α : Type} (o : Option (List α)) : cloneOList o = o := by
  cases o <;> simp [cloneOList]

theorem cloneOpt_eq {α : Type} (o : Option α) : cloneOpt o = o := by
  cases o <;> simp [cloneOpt]

theorem netInfoClone_eq (n : NetInfo) : n.Clone = n := by
  cases n; simp [NetInfo.Clone, cloneOList_eq]

theorem netInfoOptClone_eq (o : Option NetInfo) :
    Option.map NetInfo.Clone o = o := by
  cases o <;> simp [netInfoClone_eq]

theorem hostinfoClone_eq (h : Hostinfo) : h.Clone = h := by
  cases h
  simp [Hostinfo.Clone, cloneOList_eq, netInfoOptClone_eq]

theorem nodeClone_eq (n : Node) : n.Clone = n := by
  cases n
  simp [Node.Clone, cloneOList_eq, cloneOpt_eq, hostinfoClone_eq]

theorem userClone_eq (u : User) : u.Clone = u := by
  cases u; simp [User.Clone, cloneOList_eq]

/-! ### Helper lemmas: hex codec -/

theorem hexVal_hexDigit (d : Nat) (h : d < 16) : hexVal (hexDigit d) = some d := by
  interval_cases d <;> decide

theorem hexVal_some (c : Char) (v : Nat) (h : hexVal c = some v) :
    hexDigit v = lowerHex c ∧ v < 16 := by
  have hofc := Char.ofNat_toNat c
  unfold hexVal at h
  split at h
  case isTrue hb =>
    obtain rfl : c.toNat - 48 = v := by injection h
    have hv10 : c.toNat - 48 < 10 := by omega
    constructor
    · rw [hexDigit, if_pos hv10, lowerHex, if_neg (by omega)]
      rw [show 48 + (c.toNat - 48) = c.toNat by omega, hofc]
    · omega
  case isFalse hb1 =>
    split at h
    case isTrue hb =>
      obtain rfl : c.toNat - 87 = v := by injection h
      constructor
      · rw [hexDigit, if_neg (by omega), lowerHex, if_neg (by omega)]
        rw [show 97 + (c.toNat - 87 - 10) = c.toNat by omega, hofc]
      · omega
    case isFalse hb2 =>
      split at h
      case isTrue hb =>
        obtain rfl : c.toNat - 55 = v := by injection h
        constructor
        · rw [hexDigit, if_neg (by omega), lowerHex, if_pos hb]
          rw [show 97 + (c.toNat - 55 - 10) = c.toNat + 32 by omega]
        · omega
      case isFalse hb3 => cases h

theorem encodeBytes_length (bs : List Nat) :
    (encodeBytes bs).length = 2 * bs.length := by
  induction bs with
  | nil => simp [encodeBytes]
  | cons b bs ih =>
    simp [encodeBytes, byteToHex] at ih ⊢
    omega

theorem decodeHexPairs_encodeBytes (bs : List Nat) (h : ∀ b ∈ bs, IsByte b) :
    decodeHexPairs (encodeBytes bs) = some bs := by
  induction bs with
  | nil => simp [encodeBytes, decodeHexPairs]
  | cons b bs ih =>
    have hb : b < 256 := h b (List.mem_cons_self b bs)
    have hdiv : b / 16 < 16 := by omega
    have hmod : b % 16 < 16 := by omega
    have hrest : decodeHexPairs (encodeBytes bs) = some bs :=
      ih fun x hx => h x (List.mem_cons_of_mem b hx)
    have hexp : encodeBytes (b :: bs)
        = hexDigit (b / 16) :: hexDigit (b % 16) :: encodeBytes bs := by
      simp [encodeBytes, byteToHex]
    rw [hexp]
    simp only [decodeHexPairs, hexVal_hexDigit _ hdiv, hexVal_hexDigit _ hmod,
      hrest, Option.some.injEq, List.cons.injEq]
    refine ⟨by omega, by trivial⟩

theorem decodeHexPairs_cons_fail {c1 c2 : Char} {rest : List Char}
    (hfail : ∀ (v1 v2 : Nat) (bs : List Nat), hexVal c1 = some v1 →
      hexVal c2 = some v2 → decodeHexPairs rest = some bs → False) :
    decodeHexPairs (c1 :: c2 :: rest) = none := by
  simp only [decodeHexPairs]

theorem decodeHexPairs_length (l : List Char) (bs : List Nat)
    (h : decodeHexPairs l = some bs) : l.length = 2 * bs.length := by
  induction l using decodeHexPairs.induct generalizing bs with
  | case1 =>
    simp [decodeHexPairs] at h
    subst h; simp
  | case2 c => simp [decodeHexPairs] at h
  | case3 c1 c2 rest v1 v2 bs0 hrest hc2 hc1 ih =>
    simp only [decodeHexPairs, hc1, hc2, hrest, Option.some.injEq] at h
    subst h
    have := ih bs0 hrest
    simp only [List.length_cons]
    omega
  | case4 c1 c2 rest hfail ih =>
    rw [decodeHexPairs_cons_fail hfail] at h
    cases h

theorem encodeBytes_decodeHexPairs (l : List Char) (bs : List Nat)
    (h : decodeHexPairs l = some bs) : encodeBytes bs = l.map lowerHex := by
  induction l using decodeHexPairs.induct generalizing bs with
  | case1 =>
    simp [decodeHexPairs] at h
    subst h; simp [encodeBytes]
  | case2 c => simp [decodeHexPairs] at h
  | case3 c1 c2 rest v1 v2 bs0 hrest hc2 hc1 ih =>
    simp only [decodeHexPairs, hc1, hc2, hrest, Option.some.injEq] at h
    subst h
    obtain ⟨hd1, hv1⟩ := hexVal_some c1 v1 hc1
    obtain ⟨hd2, hv2⟩ := hexVal_some c2 v2 hc2
    have hdiv : (v1 * 16 + v2) / 16 = v1 := by omega
    have hmod : (v1 * 16 + v2) % 16 = v2 := by omega
    have hexp : encodeBytes ((v1 * 16 + v2) :: bs0)
        = hexDigit ((v1 * 16 + v2) / 16) :: hexDigit ((v1 * 16 + v2) % 16)
          :: encodeBytes bs0 := by
      simp [encodeBytes, byteToHex]
    rw [hexp, hdiv, hmod, hd1, hd2, List.map_cons, List.map_cons,
      ih bs0 hrest]
  | case4 c1 c2 rest hfail ih =>
    rw [decodeHexPairs_cons_fail hfail] at h
    cases h

theorem decodeHexPairs_isSome (l : List Char) :
    (decodeHexPairs l).isSome = true ↔ l.length % 2 = 0 ∧ l.all isHex = true := by
  induction l using decodeHexPairs.induct with
  | case1 => simp [decodeHexPairs]
  | case2 c => simp [decodeHexPairs]
  | case3 c1 c2 rest v1 v2 bs0 hrest hc2 hc1 ih =>
    have h1 : isHex c1 = true := by simp [isHex, hc1]
    have h2 : isHex c2 = true := by simp [isHex, hc2]
    have h3 := ih.mp (by simp [hrest])
    simp only [decodeHexPairs, hc1, hc2, hrest, Option.isSome_some,
      List.all_cons, h1, h2, h3.2, List.length_cons, Bool.true_and,
      true_iff]
    refine ⟨by omega, by trivial⟩
  | case4 c1 c2 rest hfail ih =>
    rw [decodeHexPairs_cons_fail hfail]
    simp only [Option.isSome_none, List.all_cons, List.length_cons,
      Bool.and_eq_true]
    constructor
    · intro hfalse; cases hfalse
    · rintro ⟨hlen, ha1, ha2, har⟩
      rcases hv1 : hexVal c1 with _ | v1
      · rw [isHex, hv1] at ha1; cases ha1
      rcases hv2 : hexVal c2 with _ | v2
      · rw [isHex, hv2] at ha2; cases ha2
      have hr : (decodeHexPairs rest).isSome = true :=
        ih.mpr ⟨by omega, har⟩
      rcases h3 : decodeHexPairs rest with _ | tl
      · rw [h3] at hr; cases hr
      exact (hfail v1 v2 tl hv1 hv2 h3).elim

/-! ### Helper lemmas: key codec round trips -/

theorem keyDecode_keyEncode (pfx : List Char) (bs : List Nat)
    (h : KeyBytesOk bs) : keyDecode pfx (keyEncode pfx bs) = .ok bs := by
  obtain ⟨hlen, hbytes⟩ := h
  unfold keyDecode keyEncode
  rw [List.take_left, List.drop_left]
  simp [encodeBytes_length, hlen, decodeHexPairs_encodeBytes bs hbytes]

theorem keyDecode_ok (pfx s : List Char) (bs : List Nat)
    (h : keyDecode pfx s = .ok bs) :
    s.take pfx.length = pfx ∧ (s.drop pfx.length).length = 64 ∧
      (s.drop pfx.length).all isHex = true ∧ bs.length = 32 ∧
      encodeBytes bs = (s.drop pfx.length).map lowerHex := by
  unfold keyDecode at h
  split at h
  case isFalse => cases h
  case isTrue htake =>
    split at h
    case isFalse => cases h
    case isTrue hlen =>
      rcases hdp : decodeHexPairs (s.drop pfx.length) with _ | bs0 <;>
        simp only [hdp] at h
      · cases h
      · split at h
        next h32 =>
          obtain rfl : bs0 = bs := by
            simpa using h
          have hall : (s.drop pfx.length).all isHex = true := by
            have := (decodeHexPairs_isSome (s.drop pfx.length)).mp
              (by simp [hdp])
            exact this.2
          exact ⟨htake, hlen, hall, h32,
            encodeBytes_decodeHexPairs _ _ hdp⟩
        next h32 => cases h

theorem keyEncode_keyDecode (pfx s : List Char) (bs : List Nat)
    (hfix : pfx.map lowerHex = pfx) (h : keyDecode pfx s = .ok bs) :
    keyEncode pfx bs = s.map lowerHex := by
  obtain ⟨htake, hlen, hall, h32, henc⟩ := keyDecode_ok pfx s bs h
  calc keyEncode pfx bs
      = pfx ++ encodeBytes bs := rfl
    _ = pfx.map lowerHex ++ (s.drop pfx.length).map lowerHex := by
        rw [hfix, henc]
    _ = (pfx ++ s.drop pfx.length).map lowerHex := by
        rw [List.map_append]
    _ = (s.take pfx.length ++ s.drop pfx.length).map lowerHex := by
        rw [htake]
    _ = s.map lowerHex := by
        rw [List.take_append_drop]

theorem keyDecode_isOk_iff (pfx s : List Char) :
    (∃ bs, keyDecode pfx s = .ok bs) ↔
      (s.take pfx.length = pfx ∧ (s.drop pfx.length).length = 64 ∧
        (s.drop pfx.length).all isHex = true) := by
  constructor
  · rintro ⟨bs, h⟩
    obtain ⟨htake, hlen, hall, _, _⟩ := keyDecode_ok pfx s bs h
    exact ⟨htake, hlen, hall⟩
  · rintro ⟨htake, hlen, hall⟩
    have hsome : (decodeHexPairs (s.drop pfx.length)).isSome = true :=
      (decodeHexPairs_isSome _).mpr ⟨by omega, hall⟩
    rcases hdp : decodeHexPairs (s.drop pfx.length) with _ | bs0
    · rw [hdp] at hsome; cases hsome
    · have h32 : bs0.length = 32 := by
        have := decodeHexPairs_length _ _ hdp
        omega
      refine ⟨bs0, ?_⟩
      unfold keyDecode
      rw [if_pos htake, if_pos hlen, hdp]
      simp [h32]

theorem keyDecode_isError_iff (pfx s : List Char) :
    (∃ e, keyDecode pfx s = .error e) ↔
      ¬(s.take pfx.length = pfx ∧ (s.drop pfx.length).length = 64 ∧
        (s.drop pfx.length).all isHex = true) := by
  rw [← keyDecode_isOk_iff]
  rcases h : keyDecode pfx s with e | bs <;> simp [h]

/-! ### Helper lemmas: equality characterizations used by the claims -/

theorem hostinfoEqualVal_false (a b : Hostinfo) (hne : a ≠ b) :
    Hostinfo.EqualVal a b = false := by
  cases hval : Hostinfo.EqualVal a b with
  | false => rfl
  | true => exact absurd ((hostinfoEqualVal_iff a b).mp hval) hne

theorem nodeEqualVal_false (a b : Node) (hne : a ≠ b) :
    Node.EqualVal a b = false := by
  cases hval : Node.EqualVal a b with
  | false => rfl
  | true => exact absurd ((nodeEqualVal_iff a b).mp hval) hne

theorem olistEqual_some_iff_get {α : Type} [DecidableEq α] (xs ys : List α) :
    olistEqual (some xs) (some ys) = true ↔
      (xs.length = ys.length ∧
        ∀ (i : Nat) (hx : i < xs.length) (hy : i < ys.length),
          xs.get ⟨i, hx⟩ = ys.get ⟨i, hy⟩) := by
  rw [olistEqual_iff, Option.some.injEq]
  exact List.ext_get_iff

theorem exceptMap_ok_iff {α β : Type} (f : α → β) (x : Except FormatError α) :
    (∃ b, x.map f = .ok b) ↔ (∃ a, x = .ok a) := by
  cases x <;> simp [Except.map]

theorem exceptMap_error_iff {α β : Type} (f : α → β) (x : Except FormatError α) :
    (∃ e, x.map f = .error e) ↔ (∃ e, x = .error e) := by
  cases x <;> simp [Except.map]

/-! ### Claims -/

/-- C4: for Equal on Hostinfo and Node references, Equal(nil, nil) is true,
and for any non-nil value x, Equal(x, nil) and Equal(nil, x) are false. -/
theorem spec_C4 :
    Hostinfo.Equal none none = true ∧ Node.Equal none none = true ∧
    (∀ h : Hostinfo,
      Hostinfo.Equal (some h) none = false ∧
      Hostinfo.Equal none (some h) = false) ∧
    (∀ n : Node,
      Node.Equal (some n) none = false ∧
      Node.Equal none (some n) = false) :=
  ⟨rfl, rfl, fun _ => ⟨rfl, rfl⟩, fun _ => ⟨rfl, rfl⟩⟩

/-- C9: Equal on Hostinfo and Node is symmetric on all references including
nil, and reflexive on every value. -/
theorem spec_C9 :
    (∀ a b : Option Hostinfo, Hostinfo.Equal a b = Hostinfo.Equal b a) ∧
    (∀ a b : Option Node, Node.Equal a b = Node.Equal b a) ∧
    (∀ x : Hostinfo, Hostinfo.Equal (some x) (some x) = true) ∧
    (∀ x : Node, Node.Equal (some x) (some x) = true) := by
  refine ⟨?_, ?_, ?_, ?_⟩
  · intro a b
    by_cases hab : a = b
    · subst hab; rfl
    · have h1 : Hostinfo.Equal a b = false := by
        cases hv : Hostinfo.Equal a b with
        | false => rfl
        | true => exact absurd ((hostinfoEqual_iff a b).mp hv) hab
      have h2 : Hostinfo.Equal b a = false := by
        cases hv : Hostinfo.Equal b a with
        | false => rfl
        | true => exact absurd ((hostinfoEqual_iff b a).mp hv) (Ne.symm hab)
      rw [h1, h2]
  · intro a b
    by_cases hab : a = b
    · subst hab; rfl
    · have h1 : Node.Equal a b = false := by
        cases hv : Node.Equal a b with
        | false => rfl
        | true => exact absurd ((nodeEqual_iff a b).mp hv) hab
      have h2 : Node.Equal b a = false := by
        cases hv : Node.Equal b a with
        | false => rfl
        | true => exact absurd ((nodeEqual_iff b a).mp hv) (Ne.symm hab)
      rw [h1, h2]
  · intro x
    exact (hostinfoEqual_iff (some x) (some x)).mpr rfl
  · intro x
    exact (nodeEqual_iff (some x) (some x)).mpr rfl

/-- C7: for every value of each of the three key types, String and
MarshalText produce the same text byte-for-byte, and MarshalText never
returns an error. -/
theorem spec_C7 :
    (∀ k : NodeKey, NodeKey.MarshalText k = .ok (NodeKey.String k)) ∧
    (∀ k : MachineKey, MachineKey.MarshalText k = .ok (MachineKey.String k)) ∧
    (∀ k : DiscoKey, DiscoKey.MarshalText k = .ok (DiscoKey.String k)) :=
  ⟨fun _ => rfl, fun _ => rfl, fun _ => rfl⟩

/-- C1: an ordered-collection field that is nil is never equal to one that
is empty-but-non-nil, for each of the six slice fields of Hostinfo and
Node; and two nil collections in the same position compare equal. -/
theorem spec_C1 :
    (∀ h : Hostinfo, h.RoutableIPs = none →
      Hostinfo.Equal (some h)
        (some { h with RoutableIPs := some [] }) = false) ∧
    (∀ h : Hostinfo, h.RequestTags = none →
      Hostinfo.Equal (some h)
        (some { h with RequestTags := some [] }) = false) ∧
    (∀ h : Hostinfo, h.Services = none →
      Hostinfo.Equal (some h)
        (some { h with Services := some [] }) = false) ∧
    (∀ n : Node, n.Addresses = none →
      Node.Equal (some n) (some { n with Addresses := some [] }) = false) ∧
    (∀ n : Node, n.AllowedIPs = none →
      Node.Equal (some n) (some { n with AllowedIPs := some [] }) = false) ∧
    (∀ n : Node, n.Endpoints = none →
      Node.Equal (some n) (some { n with Endpoints := some [] }) = false) ∧
    olistEqual (none : Option (List IPPrefix)) none = true ∧
    olistEqual (none : Option (List String)) none = true ∧
    olistEqual (none : Option (List Service)) none = true := by
  refine ⟨?_, ?_, ?_, ?_, ?_, ?_, rfl, rfl, rfl⟩
  · intro x hnil
    refine hostinfoEqualVal_false _ _ fun hcontra => ?_
    have : x.RoutableIPs = some [] := by rw [hcontra]
    rw [hnil] at this; cases this
  · intro x hnil
    refine hostinfoEqualVal_false _ _ fun hcontra => ?_
    have : x.RequestTags = some [] := by rw [hcontra]
    rw [hnil] at this; cases this
  · intro x hnil
    refine hostinfoEqualVal_false _ _ fun hcontra => ?_
    have : x.Services = some [] := by rw [hcontra]
    rw [hnil] at this; cases this
  · intro x hnil
    refine nodeEqualVal_false _ _ fun hcontra => ?_
    have : x.Addresses = some [] := by rw [hcontra]
    rw [hnil] at this; cases this
  · intro x hnil
    refine nodeEqualVal_false _ _ fun hcontra => ?_
    have : x.AllowedIPs = some [] := by rw [hcontra]
    rw [hnil] at this; cases this
  · intro x hnil
    refine nodeEqualVal_false _ _ fun hcontra => ?_
    have : x.Endpoints = some [] := by rw [hcontra]
    rw [hnil] at this; cases this

/-- C1 witness: the nil-vs-empty inequality at the all-zero Hostinfo. -/
theorem spec_C1_witness :
    Hostinfo.Equal (some Hostinfo.empty)
      (some { Hostinfo.empty with RoutableIPs := some [] }) = false :=
  spec_C1.1 Hostinfo.empty rfl

/-- C5: two non-nil ordered-collection fields in the same position compare
equal iff they have the same length and are element-wise equal in order;
concretely, RoutableIPs lists with the same prefixes in the same order are
equal, and lists of equal length differing only in the second element are
unequal. -/
theorem spec_C5 :
    (∀ xs ys : List IPPrefix,
      olistEqual (some xs) (some ys) = true ↔
        (xs.length = ys.length ∧
          ∀ (i : Nat) (hx : i < xs.length) (hy : i < ys.length),
            xs.get ⟨i, hx⟩ = ys.get ⟨i, hy⟩)) ∧
    (∀ xs ys : List String,
      olistEqual (some xs) (some ys) = true ↔
        (xs.length = ys.length ∧
          ∀ (i : Nat) (hx : i < xs.length) (hy : i < ys.length),
            xs.get ⟨i, hx⟩ = ys.get ⟨i, hy⟩)) ∧
    (∀ xs ys : List Service,
      olistEqual (some xs) (some ys) = true ↔
        (xs.length = ys.length ∧
          ∀ (i : Nat) (hx : i < xs.length) (hy : i < ys.length),
            xs.get ⟨i, hx⟩ = ys.get ⟨i, hy⟩)) ∧
    Hostinfo.Equal
      (some { Hostinfo.empty with RoutableIPs := some [⟨ipv4 10 1 0 0, 16⟩, ⟨ipv4 192 168 1 0, 24⟩] })
      (some { Hostinfo.empty with RoutableIPs := some [⟨ipv4 10 1 0 0, 16⟩, ⟨ipv4 192 168 1 0, 24⟩] }) = true ∧
    Hostinfo.Equal
      (some { Hostinfo.empty with RoutableIPs := some [⟨ipv4 10 1 0 0, 16⟩, ⟨ipv4 192 168 1 0, 24⟩] })
      (some { Hostinfo.empty with RoutableIPs := some [⟨ipv4 10 1 0 0, 16⟩, ⟨ipv4 192 168 2 0, 24⟩] }) = false := by
  refine ⟨?_, ?_, ?_, by decide, by decide⟩ <;>
    · intro xs ys
      exact olistEqual_some_iff_get xs ys

/-- C5 witness: the element-wise characterization applied to concrete
one-element RoutableIPs collections. -/
theorem spec_C5_witness :
    olistEqual (some [(⟨ipv4 10 0 0 0, 16⟩ : IPPrefix)])
      (some [⟨ipv4 10 0 0 0, 16⟩]) = true :=
  (spec_C5.1 [⟨ipv4 10 0 0 0, 16⟩] [⟨ipv4 10 0 0 0, 16⟩]).mpr
    ⟨rfl, by decide⟩

/-- C10: all three fields of a Service element (protocol, port,
description) participate in Hostinfo equality: with all other fields fixed,
two Services collections compare equal exactly when the element lists are
equal, element equality being equality of all three fields; concretely the
test's differing services compare unequal and identical ones equal. -/
theorem spec_C10 :
    (∀ (h : Hostinfo) (xs ys : List Service),
      Hostinfo.Equal (some { h with Services := some xs })
        (some { h with Services := some ys }) = true ↔ xs = ys) ∧
    (∀ s t : Service,
      s = t ↔ (s.Proto = t.Proto ∧ s.Port = t.Port ∧
        s.Description = t.Description)) ∧
    Hostinfo.Equal
      (some { Hostinfo.empty with Services := some [⟨TCP, 1234, "foo"⟩] })
      (some { Hostinfo.empty with Services := some [⟨UDP, 2345, "bar"⟩] })
      = false ∧
    Hostinfo.Equal
      (some { Hostinfo.empty with Services := some [⟨TCP, 1234, "foo"⟩] })
      (some { Hostinfo.empty with Services := some [⟨TCP, 1234, "foo"⟩] })
      = true := by
  refine ⟨?_, ?_, by decide, by decide⟩
  · intro h xs ys
    constructor
    · intro htrue
      have hstruct := (hostinfoEqualVal_iff _ _).mp htrue
      have := congrArg Hostinfo.Services hstruct
      simpa using this
    · rintro rfl
      exact (hostinfoEqualVal_iff _ _).mpr rfl
  · intro s t
    constructor
    · rintro rfl
      exact ⟨rfl, rfl, rfl⟩
    · rintro ⟨h1, h2, h3⟩
      cases s; cases t
      simp_all

/-- C8: Node.Equal compares KeyExpiry and Created by exact instant equality
with no tolerance, and compares the optional LastSeen as nil-vs-nil equal,
nil-vs-present unequal, present-vs-present equal iff the pointed-to
instants are equal. -/
theorem spec_C8 :
    (∀ (n : Node) (t t' : Int), t ≠ t' →
      Node.Equal (some { n with KeyExpiry := t })
        (some { n with KeyExpiry := t' }) = false) ∧
    (∀ (n : Node) (t : Int),
      Node.Equal (some { n with KeyExpiry := t })
        (some { n with KeyExpiry := t }) = true) ∧
    (∀ (n : Node) (t t' : Int), t ≠ t' →
      Node.Equal (some { n with Created := t })
        (some { n with Created := t' }) = false) ∧
    (∀ (n : Node) (t : Int),
      Node.Equal (some { n with Created := t })
        (some { n with Created := t }) = true) ∧
    (∀ n : Node,
      Node.Equal (some { n with LastSeen := none })
        (some { n with LastSeen := none }) = true) ∧
    (∀ (n : Node) (t : Int),
      Node.Equal (some { n with LastSeen := none })
        (some { n with LastSeen := some t }) = false ∧
      Node.Equal (some { n with LastSeen := some t })
        (some { n with LastSeen := none }) = false) ∧
    (∀ (n : Node) (t t' : Int),
      Node.Equal (some { n with LastSeen := some t })
        (some { n with LastSeen := some t' }) = true ↔ t = t') := by
  refine ⟨?_, ?_, ?_, ?_, ?_, ?_, ?_⟩
  · intro n t t' hne
    refine nodeEqualVal_false _ _ fun hcontra => hne ?_
    have := congrArg Node.KeyExpiry hcontra
    simpa using this
  · intro n t
    exact (nodeEqualVal_iff _ _).mpr rfl
  · intro n t t' hne
    refine nodeEqualVal_false _ _ fun hcontra => hne ?_
    have := congrArg Node.Created hcontra
    simpa using this
  · intro n t
    exact (nodeEqualVal_iff _ _).mpr rfl
  · intro n
    exact (nodeEqualVal_iff _ _).mpr rfl
  · intro n t
    constructor
    · refine nodeEqualVal_false _ _ fun hcontra => ?_
      have := congrArg Node.LastSeen hcontra
      simp at this
    · refine nodeEqualVal_false _ _ fun hcontra => ?_
      have := congrArg Node.LastSeen hcontra
      simp at this
  · intro n t t'
    constructor
    · intro htrue
      have hstruct := (nodeEqualVal_iff _ _).mp htrue
      have := congrArg Node.LastSeen hstruct
      simpa using this
    · rintro rfl
      exact (nodeEqualVal_iff _ _).mpr rfl

/-- C8 witness: differing KeyExpiry instants at the zero Node are unequal,
and a present LastSeen never equals an absent one. -/
theorem spec_C8_witness :
    (0 : Int) ≠ 60 ∧
    Node.Equal (some { Node.empty with KeyExpiry := 0 })
      (some { Node.empty with KeyExpiry := 60 }) = false :=
  ⟨by decide, spec_C8.1 Node.empty 0 60 (by decide)⟩

/-- C3: Clone on User, Node and Hostinfo yields a value that Equal (or deep
comparison, for User) accepts immediately after cloning; every nil
ordered-collection field stays nil and every empty-but-non-nil collection
stays empty-but-non-nil. In this pure embedding the clone is a fresh value,
so mutating one never changes the other by construction. -/
theorem spec_C3 :
    (∀ u : User, u.Clone = u) ∧
    (∀ h : Hostinfo, Hostinfo.Equal (some h) (some h.Clone) = true) ∧
    (∀ n : Node, Node.Equal (some n) (some n.Clone) = true) ∧
    (∀ h : Hostinfo, h.RoutableIPs = none → h.Clone.RoutableIPs = none) ∧
    (∀ h : Hostinfo, h.RoutableIPs = some [] → h.Clone.RoutableIPs = some []) ∧
    (∀ h : Hostinfo, h.RequestTags = none → h.Clone.RequestTags = none) ∧
    (∀ h : Hostinfo, h.RequestTags = some [] → h.Clone.RequestTags = some []) ∧
    (∀ h : Hostinfo, h.Services = none → h.Clone.Services = none) ∧
    (∀ h : Hostinfo, h.Services = some [] → h.Clone.Services = some []) ∧
    (∀ n : Node, n.Addresses = none → n.Clone.Addresses = none) ∧
    (∀ n : Node, n.Addresses = some [] → n.Clone.Addresses = some []) ∧
    (∀ n : Node, n.AllowedIPs = none → n.Clone.AllowedIPs = none) ∧
    (∀ n : Node, n.AllowedIPs = some [] → n.Clone.AllowedIPs = some []) ∧
    (∀ n : Node, n.Endpoints = none → n.Clone.Endpoints = none) ∧
    (∀ n : Node, n.Endpoints = some [] → n.Clone.Endpoints = some []) ∧
    (∀ u : User, u.Logins = none → u.Clone.Logins = none) ∧
    (∀ u : User, u.Logins = some [] → u.Clone.Logins = some []) := by
  refine ⟨userClone_eq, ?_, ?_, ?_, ?_, ?_, ?_, ?_, ?_, ?_, ?_, ?_, ?_,
    ?_, ?_, ?_, ?_⟩
  · intro h
    exact (hostinfoEqual_iff _ _).mpr (by rw [hostinfoClone_eq])
  · intro n
    exact (nodeEqual_iff _ _).mpr (by rw [nodeClone_eq])
  all_goals
    intro x hx
  all_goals
    first
      | (rw [hostinfoClone_eq]; exact hx)
      | (rw [nodeClone_eq]; exact hx)
      | (rw [userClone_eq]; exact hx)

/-- C3 witness: cloning the zero-login and empty-login users of the test,
and nil-collection preservation at the all-zero Hostinfo. -/
theorem spec_C3_witness :
    (User.mk 1 "user" (some [])).Clone = User.mk 1 "user" (some []) ∧
    Hostinfo.empty.Clone.RoutableIPs = none :=
  ⟨spec_C3.1 (User.mk 1 "user" (some [])),
    spec_C3.2.2.2.1 Hostinfo.empty rfl⟩

theorem keyText_props (pfx s : List Char) (bs : List Nat)
    (hfix : pfx.map lowerHex = pfx) (h : keyDecode pfx s = .ok bs) :
    keyEncode pfx bs = s.map lowerHex ∧ s = pfx ++ s.drop pfx.length ∧
      (s.drop pfx.length).length = 64 ∧
      (s.drop pfx.length).all isHex = true := by
  obtain ⟨htake, hlen, hall, h32, henc⟩ := keyDecode_ok pfx s bs h
  refine ⟨keyEncode_keyDecode pfx s bs hfix h, ?_, hlen, hall⟩
  conv_lhs => rw [← List.take_append_drop pfx.length s]
  rw [htake]

/-- C2: for each of the three key variants, decoding the encoding of any
32-byte value gives those bytes back; and any validly decoded text s
re-encodes to s case-normalized to lowercase, with s being exactly the
variant's prefix followed by 64 hex characters. -/
theorem spec_C2 :
    (∀ k : NodeKey, KeyBytesOk k.bytes →
      NodeKey.UnmarshalText (NodeKey.String k) = .ok k) ∧
    (∀ (s : List Char) (k : NodeKey), NodeKey.UnmarshalText s = .ok k →
      NodeKey.String k = s.map lowerHex ∧
        s = nodekeyPfx ++ s.drop nodekeyPfx.length ∧
        (s.drop nodekeyPfx.length).length = 64 ∧
        (s.drop nodekeyPfx.length).all isHex = true) ∧
    (∀ k : MachineKey, KeyBytesOk k.bytes →
      MachineKey.UnmarshalText (MachineKey.String k) = .ok k) ∧
    (∀ (s : List Char) (k : MachineKey), MachineKey.UnmarshalText s = .ok k →
      MachineKey.String k = s.map lowerHex ∧
        s = mkeyPfx ++ s.drop mkeyPfx.length ∧
        (s.drop mkeyPfx.length).length = 64 ∧
        (s.drop mkeyPfx.length).all isHex = true) ∧
    (∀ k : DiscoKey, KeyBytesOk k.bytes →
      DiscoKey.UnmarshalText (DiscoKey.String k) = .ok k) ∧
    (∀ (s : List Char) (k : DiscoKey), DiscoKey.UnmarshalText s = .ok k →
      DiscoKey.String k = s.map lowerHex ∧
        s = discokeyPfx ++ s.drop discokeyPfx.length ∧
        (s.drop discokeyPfx.length).length = 64 ∧
        (s.drop discokeyPfx.length).all isHex = true) := by
  refine ⟨?_, ?_, ?_, ?_, ?_, ?_⟩
  · intro k hk
    unfold NodeKey.UnmarshalText NodeKey.String
    rw [keyDecode_keyEncode _ _ hk]
    rfl
  · intro s k h
    unfold NodeKey.UnmarshalText at h
    rcases hkd : keyDecode nodekeyPfx s with e | bs <;>
      simp only [hkd, Except.map] at h
    · cases h
    · obtain rfl : NodeKey.mk bs = k := by simpa using h
      exact keyText_props nodekeyPfx s bs (by decide) hkd
  · intro k hk
    unfold MachineKey.UnmarshalText MachineKey.String
    rw [keyDecode_keyEncode _ _ hk]
    rfl
  · intro s k h
    unfold MachineKey.UnmarshalText at h
    rcases hkd : keyDecode mkeyPfx s with e | bs <;>
      simp only [hkd, Except.map] at h
    · cases h
    · obtain rfl : MachineKey.mk bs = k := by simpa using h
      exact keyText_props mkeyPfx s bs (by decide) hkd
  · intro k hk
    unfold DiscoKey.UnmarshalText DiscoKey.String
    rw [keyDecode_keyEncode _ _ hk]
    rfl
  · intro s k h
    unfold DiscoKey.UnmarshalText at h
    rcases hkd : keyDecode discokeyPfx s with e | bs <;>
      simp only [hkd, Except.map] at h
    · cases h
    · obtain rfl : DiscoKey.mk bs = k := by simpa using h
      exact keyText_props discokeyPfx s bs (by decide) hkd

/-- C2 witness: decode-of-encode round trip at the all-zero 32-byte machine
key. -/
theorem spec_C2_witness :
    KeyBytesOk (List.replicate 32 0) ∧
    MachineKey.UnmarshalText (MachineKey.String ⟨List.replicate 32 0⟩)
      = .ok ⟨List.replicate 32 0⟩ :=
  ⟨by constructor <;> simp [IsByte], spec_C2.2.2.1 ⟨List.replicate 32 0⟩
    (by constructor <;> simp [IsByte])⟩

/-- C6: for each key variant, Decode returns a FormatError exactly when the
text does not consist of the exact prefix followed by 64 hex digits of
either case (equivalently: bad prefix, bad hex, or wrong decoded length),
and otherwise succeeds; failure is always a recoverable error value. -/
theorem spec_C6 :
    (∀ s : List Char,
      ((∃ k, NodeKey.UnmarshalText s = .ok k) ↔
        (s.take nodekeyPfx.length = nodekeyPfx ∧
          (s.drop nodekeyPfx.length).length = 64 ∧
          (s.drop nodekeyPfx.length).all isHex = true)) ∧
      ((∃ e, NodeKey.UnmarshalText s = .error e) ↔
        ¬(s.take nodekeyPfx.length = nodekeyPfx ∧
          (s.drop nodekeyPfx.length).length = 64 ∧
          (s.drop nodekeyPfx.length).all isHex = true))) ∧
    (∀ s : List Char,
      ((∃ k, MachineKey.UnmarshalText s = .ok k) ↔
        (s.take mkeyPfx.length = mkeyPfx ∧
          (s.drop mkeyPfx.length).length = 64 ∧
          (s.drop mkeyPfx.length).all isHex = true)) ∧
      ((∃ e, MachineKey.UnmarshalText s = .error e) ↔
        ¬(s.take mkeyPfx.length = mkeyPfx ∧
          (s.drop mkeyPfx.length).length = 64 ∧
          (s.drop mkeyPfx.length).all isHex = true))) ∧
    (∀ s : List Char,
      ((∃ k, DiscoKey.UnmarshalText s = .ok k) ↔
        (s.take discokeyPfx.length = discokeyPfx ∧
          (s.drop discokeyPfx.length).length = 64 ∧
          (s.drop discokeyPfx.length).all isHex = true)) ∧
      ((∃ e, DiscoKey.UnmarshalText s = .error e) ↔
        ¬(s.take discokeyPfx.length = discokeyPfx ∧
          (s.drop discokeyPfx.length).length = 64 ∧
          (s.drop discokeyPfx.length).all isHex = true))) := by
  refine ⟨fun s => ⟨?_, ?_⟩, fun s => ⟨?_, ?_⟩, fun s => ⟨?_, ?_⟩⟩
  · unfold NodeKey.UnmarshalText
    rw [exceptMap_ok_iff]
    exact keyDecode_isOk_iff _ _
  · unfold NodeKey.UnmarshalText
    rw [exceptMap_error_iff]
    exact keyDecode_isError_iff _ _
  · unfold MachineKey.UnmarshalText
    rw [exceptMap_ok_iff]
    exact keyDecode_isOk_iff _ _
  · unfold MachineKey.UnmarshalText
    rw [exceptMap_error_iff]
    exact keyDecode_isError_iff _ _
  · unfold DiscoKey.UnmarshalText
    rw [exceptMap_ok_iff]
    exact keyDecode_isOk_iff _ _
  · unfold DiscoKey.UnmarshalText
    rw [exceptMap_error_iff]
    exact keyDecode_isError_iff _ _

/-- C6 witness: the empty text fails to decode as a node key with a
recoverable error value. -/
theorem spec_C6_witness :
    ∃ e, NodeKey.UnmarshalText [] = .error e :=
  (spec_C6.1 []).2.mpr (by decide)
